import Mathlib

/-!
Shallow embedding of `src/server/src/codeActions.ts` (rescript-vscode).
Strings from the program are modelled as lists of characters; positions use
integers because JavaScript numeric arithmetic on character offsets can go
negative (for example `character - 1` at column 0).
-/

/-- Model of a JavaScript string: its sequence of characters. -/
abbrev JSString := List Char

/-- Character list of a Lean string literal (used to write concrete program strings). -/
def chars (s : String) : JSString := s.data

/-- Named characters, to keep character handling explicit. -/
def spaceChar : Char := Char.ofNat 32

def backtickChar : Char := Char.ofNat 96

def hashChar : Char := Char.ofNat 35

def pipeChar : Char := Char.ofNat 124

def dotChar : Char := Char.ofNat 46

def underscoreChar : Char := Char.ofNat 95

def newlineChar : Char := Char.ofNat 10

def carriageReturnChar : Char := Char.ofNat 13

/-- A position in a document: `line` and `character`, as in the LSP protocol. -/
structure Pos where
  line : Int
  character : Int
deriving DecidableEq

/-- A source range, as in the LSP protocol (`p.Range`). -/
structure Range where
  start : Pos
  «end» : Pos
deriving DecidableEq

/-- A textual edit: a range replaced by `newText` (zero-width ranges are insertions). -/
structure TextEdit where
  range : Range
  newText : JSString
deriving DecidableEq

/-- A code action. The source also stores the originating diagnostic and the
constant kind `QuickFix`; the diagnostic is opaque to this module (it is copied
verbatim from the input) and the kind is constant, so neither is modelled.
`edits` models `edit.changes`, the object mapping a file path to its edits. -/
structure CodeAction where
  title : JSString
  edits : List (JSString × List TextEdit)
  isPreferred : Bool
deriving DecidableEq

/-- Model of the `filesCodeActions` accumulator object: the chronological list
of entries pushed into it, each remembering its file key, the range, and the
code action. `codeActions[file].push(x)` appends an entry with key `file`. -/
abbrev filesCodeActions := List (JSString × Range × CodeAction)

/-- Test whether the second list is a prefix of the first
(JavaScript `String.prototype.startsWith`). -/
def listStartsWith : List Char → List Char → Bool
  | _, [] => true
  | [], _ :: _ => false
  | a :: l, b :: p => a = b && listStartsWith l p

/-- Locate the first occurrence of `sep` in a list, returning the part before
it and the part after it. Returns `none` when `sep` (assumed nonempty) does not
occur. This is the primitive behind the JavaScript `includes`, `split` (when
only one component is needed) and one-shot `replace` operations. -/
def splitFirstSub (sep : List Char) : List Char → Option (List Char × List Char)
  | [] => none
  | a :: as =>
    if listStartsWith (a :: as) sep then
      some ([], (a :: as).drop sep.length)
    else
      match splitFirstSub sep as with
      | some (b, c) => some (a :: b, c)
      | none => none

/-- JavaScript `s.includes(sub)` for a nonempty `sub`. -/
def jsIncludes (s sub : JSString) : Bool := (splitFirstSub sub s).isSome

/-- JavaScript `s.split(sep)` for a single-character separator. -/
def splitOnChar (c : Char) : List Char → List (List Char)
  | [] => [[]]
  | a :: as =>
    match splitOnChar c as with
    | [] => [[]]
    | h :: t => if a = c then [] :: h :: t else (a :: h) :: t

/-- JavaScript `s.split(sep)[0]`: the text before the first occurrence of
`sep`, or the whole string when `sep` does not occur. -/
def jsSplitHead (s sep : JSString) : JSString :=
  match splitFirstSub sep s with
  | none => s
  | some (b, _) => b

/-- JavaScript `s.split(sep)[1]`: the text strictly between the first and the
second occurrence of `sep` (or after the first occurrence when there is no
second one); `none` when `sep` does not occur at all, modelling `undefined`. -/
def jsSplitSecond (s sep : JSString) : Option JSString :=
  match splitFirstSub sep s with
  | none => none
  | some (_, rest) =>
    match splitFirstSub sep rest with
    | none => some rest
    | some (b, _) => some b

/-- JavaScript whitespace characters relevant to `trim` (space, tab, LF, CR). -/
def isJsSpace (c : Char) : Bool :=
  c = spaceChar || c = Char.ofNat 9 || c = newlineChar || c = carriageReturnChar

/-- JavaScript `s.trim()`. -/
def trimList (l : JSString) : JSString :=
  ((l.dropWhile isJsSpace).reverse.dropWhile isJsSpace).reverse

/-- JavaScript `s.replace(pat, repl)` with a plain-string pattern, which
replaces only the first occurrence. -/
def jsReplaceFirst (s pat repl : JSString) : JSString :=
  match splitFirstSub pat s with
  | none => s
  | some (b, a) => b ++ repl ++ a

/-- Semantics of `Array.from({ length: n }).join(" ")` from the source: an
array of `n` `undefined` entries (empty when `n` is not positive), each
rendered as the empty string and joined with single spaces, which yields
`max (n - 1) 0` spaces. -/
def jsSparseJoinSpace (n : Int) : JSString := List.replicate (n - 1).toNat spaceChar

/-- Word characters of the JavaScript regex class `\w`: ASCII letters, ASCII
digits and the underscore. -/
def isWordChar (c : Char) : Bool := c.isAlpha || c.isDigit || c = underscoreChar

/-- Characters of the regex class `[\w.]`. -/
def isWordDotChar (c : Char) : Bool := isWordChar c || c = dotChar

/-- Outcome of running one extractor: either it returned normally with its
boolean result and the accumulator as it left it, or it threw an exception,
with `threw` carrying the accumulator state at the moment of the throw (a
JavaScript `try`/`catch` does not roll mutations back). -/
inductive ExtractorOutcome where
  | ok (didFindAction : Bool) (codeActions : filesCodeActions)
  | threw (codeActions : filesCodeActions)
deriving DecidableEq

/-- The `codeActionExtractorConfig` record handed to each extractor. The
`diagnostic` field of the source is opaque to all extractors (it is only copied
into the produced action) and is not modelled. -/
structure codeActionExtractorConfig where
  line : JSString
  index : Nat
  array : List JSString
  file : JSString
  range : Range
  codeActions : filesCodeActions

/-- The `codeActionExtractor` function type of the source. -/
abbrev codeActionExtractor := codeActionExtractorConfig → ExtractorOutcome

/-- Source `wrapRangeInText`: two zero-width edits around the range, with the
opening edit shifted one character left when the range is a zero-width point. -/
def wrapRangeInText (range : Range) (wrapStart wrapEnd : JSString) : List TextEdit :=
  let offset : Int :=
    if range.start.line = range.«end».line ∧ range.start.character = range.«end».character
    then 1 else 0
  let startRange : Range :=
    { start := { line := range.start.line, character := range.start.character - offset }
      «end» := { line := range.start.line, character := range.start.character - offset } }
  let endRange : Range :=
    { start := { line := range.«end».line, character := range.«end».character }
      «end» := { line := range.«end».line, character := range.«end».character } }
  [ { range := startRange, newText := wrapStart },
    { range := endRange, newText := wrapEnd } ]

/-- Source `insertBeforeEndingChar`: one zero-width edit one character before
the end of the range. -/
def insertBeforeEndingChar (range : Range) (newText : JSString) : List TextEdit :=
  let beforeEndingChar : Pos :=
    { line := range.«end».line, character := range.«end».character - 1 }
  [ { range := { start := beforeEndingChar, «end» := beforeEndingChar }, newText := newText } ]

/-- Source `removeTrailingComma`. -/
def removeTrailingComma (text : JSString) : JSString :=
  let str := trimList text
  if listStartsWith str.reverse (chars ",") then str.dropLast else str

/-- Source `extractTypename` (the loop): keep each line with its trailing comma
removed, stopping after the first line that contains `(defined as`, from which
only the text before that marker is kept. -/
def extractTypenameLines : List JSString → List JSString
  | [] => []
  | line :: rest =>
    if jsIncludes line (chars "(defined as") then
      [removeTrailingComma (jsSplitHead line (chars "(defined as"))]
    else
      removeTrailingComma line :: extractTypenameLines rest

/-- Source `extractTypename`: join the filtered lines and trim. -/
def extractTypename (lines : List JSString) : JSString :=
  trimList (extractTypenameLines lines).flatten

/-- Source `takeUntil`: all lines strictly before the first line that starts
with the given prefix. -/
def takeUntil (array : List JSString) (sw : JSString) : List JSString :=
  array.takeWhile (fun line => !listStartsWith line sw)

/-- Semantics of `line.match(/Did you mean ([A-Za-z0-9_]*)?/)` restricted to
the capture group. The whole match fails (outer `none`, the model of a `null`
match) exactly when the literal `Did you mean ` (with its trailing space) does
not occur; the regex otherwise matches at the literal's leftmost occurrence.
The group sits under an optional quantifier, and by the ECMAScript
empty-repetition rule a repetition whose body matches only the empty string is
discarded, leaving the capture `undefined` (inner `none`): the group captures
precisely the maximal nonempty run of word characters after the literal, when
there is one. -/
def didYouMeanMatch (line : JSString) : Option (Option JSString) :=
  match splitFirstSub (chars "Did you mean ") line with
  | none => none
  | some (_, after) =>
    let run := after.takeWhile isWordChar
    some (if run.isEmpty then none else some run)

/-- Source `didYouMeanAction`: a `null` match returns `false` at once; an
`undefined` capture fails the `suggestion != null` guard and falls through to
the final `return false`. -/
def didYouMeanAction : codeActionExtractor := fun cfg =>
  if listStartsWith cfg.line (chars "Hint: Did you mean") then
    match didYouMeanMatch cfg.line with
    | none => .ok false cfg.codeActions
    | some suggestionOpt =>
      match suggestionOpt with
      | some suggestion =>
        .ok true (cfg.codeActions ++ [(cfg.file, cfg.range,
          { title := chars "Replace with \x27" ++ suggestion ++ chars "\x27"
            edits := [(cfg.file, [{ range := cfg.range, newText := suggestion }])]
            isPreferred := true })])
      | none => .ok false cfg.codeActions
  else .ok false cfg.codeActions

/-- Source `addUndefinedRecordFields`. The JavaScript computes
`line.trim().split("Some record fields are undefined: ")[1]?.split(" ")`; when
that is `undefined` (the line starts with the marker but, after trimming, does
not contain the marker followed by a space) the subsequent
`recordFieldNames.push(...)` inside the `forEach` over the continuation lines
throws a `TypeError` - unless there are no continuation lines, in which case
the `forEach` body never runs and the `!= null` guard fails. -/
def addUndefinedRecordFields : codeActionExtractor := fun cfg =>
  if listStartsWith cfg.line (chars "Some record fields are undefined:") then
    match jsSplitSecond (trimList cfg.line) (chars "Some record fields are undefined: ") with
    | none =>
      if (cfg.array.drop (cfg.index + 1)).isEmpty then .ok false cfg.codeActions
      else .threw cfg.codeActions
    | some fieldsText =>
      let recordFieldNames :=
        splitOnChar spaceChar fieldsText
          ++ (cfg.array.drop (cfg.index + 1)).flatMap
              (fun line => splitOnChar spaceChar (trimList line))
      let multilineRecordDefinitionBody : Bool :=
        cfg.range.start.line != cfg.range.«end».line
      let newText :=
        if multilineRecordDefinitionBody then
          let paddingCharacters : Int :=
            if multilineRecordDefinitionBody then cfg.range.«end».character + 2 else 0
          let paddingContentRecordField := jsSparseJoinSpace paddingCharacters
          let paddingContentEndBrace := jsSparseJoinSpace cfg.range.«end».character
          (recordFieldNames.enum.map (fun (i, fieldName) =>
            (if i = 0 then chars "  " else paddingContentRecordField)
              ++ fieldName ++ chars ": assert false,\n")).flatten
            ++ paddingContentEndBrace
        else
          chars ", "
            ++ List.intercalate (chars ", ")
                (recordFieldNames.map (fun fieldName => fieldName ++ chars ": assert false"))
      .ok true (cfg.codeActions ++ [(cfg.file, cfg.range,
        { title := chars "Add missing record fields"
          edits := [(cfg.file, insertBeforeEndingChar cfg.range newText)]
          isPreferred := true })])
  else .ok false cfg.codeActions

/-- Attempt of the regex `/You can convert (\w*) to (\w*) with ([\w.]*).$/`
anchored at the start of `l`, returning the three captured groups. The groups
are greedy runs of their character classes, which cannot be shortened by
backtracking across the fixed literals; the final `.` matches one arbitrary
non-line-terminator character, so with `tail` the text after ` with `, the
greedy `[\w.]*` first takes all of `tail` and the engine backtracks exactly
one character when nothing is left for the dot. -/
def convMatchHere (l : JSString) : Option (JSString × JSString × JSString) :=
  if listStartsWith l (chars "You can convert ") then
    let r1 := l.drop (chars "You can convert ").length
    let fromText := r1.takeWhile isWordChar
    let r2 := r1.dropWhile isWordChar
    if listStartsWith r2 (chars " to ") then
      let r3 := r2.drop (chars " to ").length
      let toText := r3.takeWhile isWordChar
      let r4 := r3.dropWhile isWordChar
      if listStartsWith r4 (chars " with ") then
        let r5 := r4.drop (chars " with ").length
        let p := r5.takeWhile isWordDotChar
        match r5.drop p.length with
        | [c] =>
          if c = newlineChar || c = carriageReturnChar then none
          else some (fromText, toText, p)
        | [] => if p.isEmpty then none else some (fromText, toText, p.dropLast)
        | _ => none
      else none
    else none
  else none

/-- The unanchored regex search: try the match attempt at every start
position, leftmost first (the regex begins with a literal, so only positions
where that literal starts can succeed). -/
def convMatchLine : JSString → Option (JSString × JSString × JSString)
  | [] => none
  | a :: as =>
    match convMatchHere (a :: as) with
    | some r => some r
    | none => convMatchLine as

/-- Source `simpleConversion`. The three captured groups of a successful match
are never `undefined` (each is a starred class that participates by matching
at least the empty string), so the `!= null` guards always pass. -/
def simpleConversion : codeActionExtractor := fun cfg =>
  if listStartsWith cfg.line (chars "You can convert ") then
    match convMatchLine cfg.line with
    | none => .ok false cfg.codeActions
    | some (fromText, toText, fn) =>
      .ok true (cfg.codeActions ++ [(cfg.file, cfg.range,
        { title := chars "Convert " ++ fromText ++ chars " to " ++ toText
            ++ chars " with " ++ fn
          edits := [(cfg.file, wrapRangeInText cfg.range (fn ++ chars "(") (chars ")"))]
          isPreferred := true })])
  else .ok false cfg.codeActions

/-- Replacement performed by `matchPattern.replace(/`/g, "#")`, per character. -/
def backtickToHash (c : Char) : Char := if c = backtickChar then hashChar else c

/-- Unfolding of `splitFirstSub` on a nonempty list. -/
theorem splitFirstSub_cons (sep : List Char) (a : Char) (as : List Char) :
    splitFirstSub sep (a :: as)
      = if listStartsWith (a :: as) sep then some ([], (a :: as).drop sep.length)
        else (splitFirstSub sep as).map (fun bc => (a :: bc.1, bc.2)) := by
  by_cases h : listStartsWith (a :: as) sep
  · simp [splitFirstSub, h]
  · simp only [splitFirstSub, h, if_false, Bool.false_eq_true]
    cases splitFirstSub sep as with
    | none => rfl
    | some bc => cases bc; rfl

/-- A list that `includes` a single-character string contains that character. -/
theorem mem_of_jsIncludes_singleton {c : Char} :
    ∀ {l : List Char}, jsIncludes l [c] = true → c ∈ l := by
  intro l
  induction l with
  | nil => intro h; simp [jsIncludes, splitFirstSub] at h
  | cons a as ih =>
    intro h
    by_cases hac : a = c
    · exact hac ▸ List.mem_cons_self a as
    · have hsw : listStartsWith (a :: as) [c] = false := by
        simp [listStartsWith, hac]
      rw [jsIncludes, splitFirstSub_cons, hsw] at h
      simp only [if_false, Bool.false_eq_true] at h
      have h2 : jsIncludes as [c] = true := by
        rw [jsIncludes]
        cases hsp : splitFirstSub [c] as with
        | none => rw [hsp] at h; simp at h
        | some bc => rfl
      exact List.mem_cons_of_mem a (ih h2)

/-- The components returned by `splitOnChar` never contain the separator. -/
theorem not_mem_of_mem_splitOnChar {c : Char} :
    ∀ {l p : List Char}, p ∈ splitOnChar c l → c ∉ p := by
  intro l
  induction l with
  | nil =>
    intro p hp
    simp only [splitOnChar, List.mem_singleton] at hp
    subst hp; simp
  | cons a as ih =>
    intro p hp
    rw [splitOnChar] at hp
    cases hr : splitOnChar c as with
    | nil =>
      rw [hr] at hp
      simp only [List.mem_singleton] at hp
      subst hp; simp
    | cons h t =>
      rw [hr] at hp
      by_cases hac : a = c
      · simp only [hac, if_true, reduceIte, List.mem_cons] at hp
        rcases hp with h1 | h1 | h1
        · subst h1; simp
        · exact ih (h1 ▸ hr ▸ List.mem_cons_self h t)
        · exact ih (hr ▸ List.mem_cons_of_mem h h1)
      · simp only [hac, if_false, reduceIte, List.mem_cons] at hp
        rcases hp with h1 | h1
        · subst h1
          intro hmem
          rcases List.mem_cons.mp hmem with h2 | h2
          · exact hac h2.symm
          · exact ih (hr ▸ List.mem_cons_self h t) h2
        · exact ih (hr ▸ List.mem_cons_of_mem h h1)

/-- The backtick-to-hash replacement maps only the space character to a space. -/
theorem backtickToHash_eq_space {x : Char} (h : backtickToHash x = spaceChar) :
    x = spaceChar := by
  by_cases hb : x = backtickChar
  · rw [backtickToHash, if_pos hb] at h
    exact absurd h (by decide)
  · rwa [backtickToHash, if_neg hb] at h

/-- A string with no space has no space after the backtick-to-hash pass. -/
theorem count_space_map_backtickToHash_eq_zero {p : List Char} (h : spaceChar ∉ p) :
    (p.map backtickToHash).count spaceChar = 0 := by
  rw [List.count_eq_zero]
  intro hmem
  rcases List.mem_map.mp hmem with ⟨x, hx, hfx⟩
  exact h (backtickToHash_eq_space hfx ▸ hx)

/-- Source `transformMatchPattern`: rewrite one OCaml-style example case into
ReScript syntax. Bails (returns `none`, the model of `null`) on a parenthesis
or a brace anywhere in the pattern, and on more than two spaces - the source
computes `text.match(/ /g)`, which is `null` exactly when the string has no
space and otherwise an array with one entry per space, and bails when
`matched != null && matched.length > 2`. With one or two spaces the case is
split on spaces, the first component is kept as the constructor, the second as
the payload (a third component, present with two spaces, is dropped), the
payload is recursively transformed only to check that it is transformable, and
the result is `constructor(payload)` built from the untransformed payload. -/
def transformMatchPattern (matchPattern : JSString) : Option JSString :=
  if jsIncludes matchPattern (chars "(") || jsIncludes matchPattern (chars "\x7b") then
    none
  else
    let text := matchPattern.map backtickToHash
    if text.count spaceChar > 2 then none
    else if h : jsIncludes text (chars " ") = true then
      let parts := splitOnChar spaceChar text
      let variantText := parts.headD []
      let payloadText := parts.getD 1 []
      match transformMatchPattern payloadText with
      | none => none
      | some _ => some (variantText ++ chars "(" ++ payloadText ++ chars ")")
    else some text
termination_by (matchPattern.map backtickToHash).count spaceChar
decreasing_by
  have hsep : (chars " ") = [spaceChar] := by decide
  rw [hsep] at h
  have hmem : spaceChar ∈ matchPattern.map backtickToHash :=
    mem_of_jsIncludes_singleton h
  have hpos : 0 < (matchPattern.map backtickToHash).count spaceChar :=
    List.count_pos_iff.mpr hmem
  have hnotmem :
      spaceChar ∉ (splitOnChar spaceChar (matchPattern.map backtickToHash)).getD 1 [] := by
    by_cases hlen : 1 < (splitOnChar spaceChar (matchPattern.map backtickToHash)).length
    · have := List.getD_eq_getElem (splitOnChar spaceChar (matchPattern.map backtickToHash)) [] hlen
      rw [this]
      exact not_mem_of_mem_splitOnChar (List.getElem_mem _)
    · rw [List.getD_eq_default _ _ (Nat.le_of_not_lt hlen)]
      simp
  have hzero := count_space_map_backtickToHash_eq_zero hnotmem
  omega

/-- Source `applyUncurried`: one zero-width edit inserting `. ` one character
past the end of the diagnosed range. -/
def applyUncurried : codeActionExtractor := fun cfg =>
  if listStartsWith cfg.line
      (chars "This is an uncurried ReScript function. It must be applied with a dot.") then
    let locOfOpenFnParens : Pos :=
      { line := cfg.range.«end».line, character := cfg.range.«end».character + 1 }
    .ok true (cfg.codeActions ++ [(cfg.file, cfg.range,
      { title := chars "Apply uncurried function call with dot"
        edits := [(cfg.file,
          [{ range := { start := locOfOpenFnParens, «end» := locOfOpenFnParens }
             newText := chars ". " }])]
        isPreferred := true })])
  else .ok false cfg.codeActions

/-- JavaScript `str.slice(1, str.length - 1)`: remove the first and the last
character (used to strip the enclosing parentheses of the example cases). -/
def sliceOffEnclosing (l : JSString) : JSString := (l.drop 1).take (l.length - 2)

/-- JavaScript `array.filter(Boolean)` over `(string | null)[]`: keeps only
entries that are non-null and non-empty (the empty string is falsy). -/
def filterTruthy (l : List (Option JSString)) : List JSString :=
  l.filterMap (fun o =>
    match o with
    | none => none
    | some s => if s.isEmpty then none else some s)

/-- Source `simpleAddMissingCases`. -/
def simpleAddMissingCases : codeActionExtractor := fun cfg =>
  if listStartsWith cfg.line
      (chars "You forgot to handle a possible case here, for example:") then
    let allCasesAsOneLine :=
      sliceOffEnclosing (trimList (cfg.array.drop (cfg.index + 1)).flatten)
    if jsIncludes allCasesAsOneLine (chars "(") then .ok false cfg.codeActions
    else
      let hasMultipleCases := jsIncludes allCasesAsOneLine (chars "|")
      let cases :=
        if hasMultipleCases then
          filterTruthy ((splitOnChar pipeChar allCasesAsOneLine).map transformMatchPattern)
        else
          match transformMatchPattern allCasesAsOneLine with
          | some transformed => [transformed]
          | none => []
      if cases.length = 0 then .ok false cfg.codeActions
      else
        let paddingContentSwitchCase := jsSparseJoinSpace cfg.range.«end».character
        let newText :=
          List.intercalate (chars "\n")
            (cases.enum.map (fun (i, variantName) =>
              (if i = 0 then [] else paddingContentSwitchCase)
                ++ chars "| " ++ variantName ++ chars " => assert false"))
            ++ chars "\n" ++ paddingContentSwitchCase
        .ok true (cfg.codeActions ++ [(cfg.file, cfg.range,
          { title := chars "Insert missing cases"
            edits := [(cfg.file, insertBeforeEndingChar cfg.range newText)]
            isPreferred := true })])
  else .ok false cfg.codeActions

/-- Source `simpleTypeMismatches`. -/
def simpleTypeMismatches : codeActionExtractor := fun cfg =>
  let lookFor := chars "This has type:"
  if listStartsWith cfg.line lookFor then
    let thisHasTypeArr :=
      takeUntil (cfg.line.drop lookFor.length :: cfg.array.drop (cfg.index + 1))
        (chars "Somewhere wanted:")
    let somewhereWantedArr :=
      (cfg.array.drop (cfg.index + thisHasTypeArr.length)).map
        (fun line => jsReplaceFirst line (chars "Somewhere wanted:") [])
    let thisHasType := extractTypename thisHasTypeArr
    let somewhereWanted := extractTypename somewhereWantedArr
    if thisHasType = chars "option<" ++ somewhereWanted ++ chars ">" then
      let defaultValue :=
        if somewhereWanted = chars "string" then chars "\x22-\x22"
        else if somewhereWanted = chars "bool" then chars "false"
        else if somewhereWanted = chars "int" then chars "-1"
        else if somewhereWanted = chars "float" then chars "-1."
        else chars "assert false"
      .ok true (cfg.codeActions ++ [(cfg.file, cfg.range,
        { title := chars "Unwrap optional value"
          edits := [(cfg.file, wrapRangeInText cfg.range (chars "switch ")
            (chars " \x7b | None => " ++ defaultValue ++ chars " | Some(v) => v \x7d"))]
          isPreferred := true })])
    else if chars "option<" ++ thisHasType ++ chars ">" = somewhereWanted then
      .ok true (cfg.codeActions ++ [(cfg.file, cfg.range,
        { title := chars "Wrap value in Some"
          edits := [(cfg.file, wrapRangeInText cfg.range (chars "Some(") (chars ")"))]
          isPreferred := true })])
    else .ok false cfg.codeActions
  else .ok false cfg.codeActions

/-- Names of the six extractors, in source order. -/
inductive ExtractorKind where
  | simpleTypeMismatches
  | didYouMeanAction
  | addUndefinedRecordFields
  | simpleConversion
  | applyUncurried
  | simpleAddMissingCases
deriving DecidableEq

/-- The extractor function each name denotes. -/
def extractorOfKind : ExtractorKind → codeActionExtractor
  | .simpleTypeMismatches => simpleTypeMismatches
  | .didYouMeanAction => didYouMeanAction
  | .addUndefinedRecordFields => addUndefinedRecordFields
  | .simpleConversion => simpleConversion
  | .applyUncurried => applyUncurried
  | .simpleAddMissingCases => simpleAddMissingCases

/-- The `codeActionEtractors` array of `findCodeActionsInDiagnosticsMessage`
(the source misspells the name), in its exact source order. -/
def codeActionEtractors : List ExtractorKind :=
  [ .simpleTypeMismatches,
    .didYouMeanAction,
    .addUndefinedRecordFields,
    .simpleConversion,
    .applyUncurried,
    .simpleAddMissingCases ]

/-- The inner `for` loop of the dispatcher: run the extractors in order on one
line, stopping after the first one that returns `true`. A `threw` outcome is
the `catch` branch: the error is logged, `didFindAction` keeps its value
`false`, and the loop continues with the accumulator as the extractor left it. -/
def runExtractorsForLine : List codeActionExtractor → codeActionExtractorConfig → filesCodeActions
  | [], cfg => cfg.codeActions
  | extractCodeAction :: rest, cfg =>
    match extractCodeAction cfg with
    | .ok true acc => acc
    | .ok false acc => runExtractorsForLine rest { cfg with codeActions := acc }
    | .threw acc => runExtractorsForLine rest { cfg with codeActions := acc }

/-- Source `findCodeActionsInDiagnosticsMessage`, generalized over the
extractor list (the source instantiates it with `codeActionEtractors`): the
`forEach` over the message lines, each line running the extractor loop against
the accumulator produced so far. -/
def findCodeActionsInDiagnosticsMessageWith (extractors : List codeActionExtractor)
    (diagnosticMessage : List JSString) (file : JSString) (range : Range)
    (codeActions : filesCodeActions) : filesCodeActions :=
  diagnosticMessage.enum.foldl
    (fun acc (entry : Nat × JSString) =>
      runExtractorsForLine extractors
        { line := entry.2, index := entry.1, array := diagnosticMessage,
          file := file, range := range, codeActions := acc })
    codeActions

/-- Source `findCodeActionsInDiagnosticsMessage`. -/
def findCodeActionsInDiagnosticsMessage (diagnosticMessage : List JSString)
    (file : JSString) (range : Range) (codeActions : filesCodeActions) : filesCodeActions :=
  findCodeActionsInDiagnosticsMessageWith (codeActionEtractors.map extractorOfKind)
    diagnosticMessage file range codeActions

/-! Supporting lemmas about the string primitives. -/

/-- Every list starts with each of its prefixes. -/
theorem listStartsWith_prefix_append (p t : List Char) :
    listStartsWith (p ++ t) p = true := by
  induction p with
  | nil => cases t <;> rfl
  | cons a as ih => simpa [listStartsWith] using ih

/-- When the first character of a nonempty separator does not occur in `h`,
the first occurrence of the separator in `h ++ sep ++ t` is the explicit one. -/
theorem splitFirstSub_of_head_notMem (c : Char) (sep' : List Char) :
    ∀ (h t : List Char), c ∉ h →
      splitFirstSub (c :: sep') (h ++ (c :: sep') ++ t) = some (h, t) := by
  intro h
  induction h with
  | nil =>
    intro t _
    have hform : ([] : List Char) ++ (c :: sep') ++ t = c :: (sep' ++ t) := by simp
    rw [hform, splitFirstSub_cons]
    have hback : c :: (sep' ++ t) = (c :: sep') ++ t := by simp
    rw [hback, if_pos (listStartsWith_prefix_append _ _), List.drop_left]
  | cons a h' ih =>
    intro t hc
    have hac : a ≠ c := fun heq => hc (heq ▸ List.mem_cons_self a h')
    have hc' : c ∉ h' := fun hmem => hc (List.mem_cons_of_mem a hmem)
    have hform : (a :: h') ++ (c :: sep') ++ t = a :: (h' ++ (c :: sep') ++ t) := by simp
    rw [hform, splitFirstSub_cons]
    have hsw : ¬ (listStartsWith (a :: (h' ++ (c :: sep') ++ t)) (c :: sep') = true) := by
      simp [listStartsWith, hac]
    rw [if_neg hsw, ih t hc']
    rfl

/-- A list all of whose characters satisfy `p` is its own `takeWhile`. -/
theorem takeWhile_eq_self_of_all {p : Char → Bool} :
    ∀ {l : List Char}, (∀ a ∈ l, p a = true) → l.takeWhile p = l := by
  intro l
  induction l with
  | nil => intro _; rfl
  | cons a as ih =>
    intro h
    rw [List.takeWhile_cons_of_pos (h a (List.mem_cons_self a as))]
    rw [ih (fun x hx => h x (List.mem_cons_of_mem a hx))]

/-- A character contained in a list is found by `includes`. -/
theorem jsIncludes_singleton_of_mem {c : Char} :
    ∀ {l : List Char}, c ∈ l → jsIncludes l [c] = true := by
  intro l
  induction l with
  | nil => intro h; simp at h
  | cons a as ih =>
    intro h
    by_cases hac : a = c
    · rw [jsIncludes, splitFirstSub_cons, if_pos (by simp [listStartsWith, hac])]
      rfl
    · have hmem : c ∈ as := by
        rcases List.mem_cons.mp h with h1 | h1
        · exact absurd h1.symm hac
        · exact h1
      rw [jsIncludes, splitFirstSub_cons, if_neg (by simp [listStartsWith, hac])]
      have := ih hmem
      rw [jsIncludes] at this
      cases hsp : splitFirstSub [c] as with
      | none => rw [hsp] at this; simp at this
      | some bc => rfl

/-- A character not contained in a list is not found by `includes`. -/
theorem jsIncludes_singleton_of_not_mem {c : Char} {l : List Char} (h : c ∉ l) :
    jsIncludes l [c] = false := by
  cases hi : jsIncludes l [c] with
  | false => rfl
  | true => exact absurd (mem_of_jsIncludes_singleton hi) h

/-- Membership in a component of `splitOnChar` implies membership in the input. -/
theorem mem_of_mem_splitOnChar {c x : Char} :
    ∀ {l p : List Char}, p ∈ splitOnChar c l → x ∈ p → x ∈ l := by
  intro l
  induction l with
  | nil =>
    intro p hp hx
    simp only [splitOnChar, List.mem_singleton] at hp
    subst hp; simp at hx
  | cons a as ih =>
    intro p hp hx
    rw [splitOnChar] at hp
    cases hr : splitOnChar c as with
    | nil =>
      rw [hr] at hp
      simp only [List.mem_singleton] at hp
      subst hp; simp at hx
    | cons h t =>
      rw [hr] at hp
      by_cases hac : a = c
      · simp only [hac, reduceIte, List.mem_cons] at hp
        rcases hp with h1 | h1 | h1
        · subst h1; simp at hx
        · exact List.mem_cons_of_mem a (ih (h1 ▸ hr ▸ List.mem_cons_self h t) hx)
        · exact List.mem_cons_of_mem a (ih (hr ▸ List.mem_cons_of_mem h h1) hx)
      · simp only [hac, reduceIte, List.mem_cons] at hp
        rcases hp with h1 | h1
        · subst h1
          rcases List.mem_cons.mp hx with h2 | h2
          · exact h2 ▸ List.mem_cons_self a as
          · exact List.mem_cons_of_mem a (ih (hr ▸ List.mem_cons_self h t) h2)
        · exact List.mem_cons_of_mem a (ih (hr ▸ List.mem_cons_of_mem h h1) hx)

/-- Characters other than the hash cannot appear in the image of the
backtick-to-hash pass unless they were already present. -/
theorem mem_of_mem_map_backtickToHash {c : Char} (hc : c ≠ hashChar) {p : List Char}
    (h : c ∈ p.map backtickToHash) : c ∈ p := by
  rcases List.mem_map.mp h with ⟨x, hx, hfx⟩
  by_cases hb : x = backtickChar
  · rw [backtickToHash, if_pos hb] at hfx
    exact absurd hfx.symm hc
  · rw [backtickToHash, if_neg hb] at hfx
    exact hfx ▸ hx

/-- The backtick-to-hash pass preserves the absence of any character other
than the hash. -/
theorem not_mem_map_backtickToHash {c : Char} (hc : c ≠ hashChar) {p : List Char}
    (h : c ∉ p) : c ∉ p.map backtickToHash :=
  fun hmem => h (mem_of_mem_map_backtickToHash hc hmem)

/-- Evaluation of `transformMatchPattern` on a pattern without parenthesis,
brace or space: only the backtick rewrite applies. -/
theorem transformMatchPattern_no_space {p : JSString}
    (hparen : Char.ofNat 40 ∉ p) (hbrace : Char.ofNat 123 ∉ p)
    (hspace : spaceChar ∉ p) :
    transformMatchPattern p = some (p.map backtickToHash) := by
  have hp : chars "(" = [Char.ofNat 40] := by decide
  have hb : chars "\x7b" = [Char.ofNat 123] := by decide
  have hs : chars " " = [spaceChar] := by decide
  have hinc1 : jsIncludes p (chars "(") = false :=
    hp ▸ jsIncludes_singleton_of_not_mem hparen
  have hinc2 : jsIncludes p (chars "\x7b") = false :=
    hb ▸ jsIncludes_singleton_of_not_mem hbrace
  have hnm : spaceChar ∉ p.map backtickToHash :=
    not_mem_map_backtickToHash (by decide) hspace
  have hinc3 : jsIncludes (p.map backtickToHash) (chars " ") = false :=
    hs ▸ jsIncludes_singleton_of_not_mem hnm
  have hcnt : (p.map backtickToHash).count spaceChar = 0 := List.count_eq_zero.mpr hnm
  unfold transformMatchPattern
  rw [if_neg (by simp [hinc1, hinc2])]
  simp only [hinc3, hcnt]
  norm_num

/-- Evaluation of `transformMatchPattern` on a pattern without parenthesis or
brace that contains at most two spaces, at least one: the backtick rewrite is
applied, the result is split on spaces, and the first two components are glued
into call syntax (any third component is dropped). -/
theorem transformMatchPattern_with_space {mp : JSString}
    (hparen : Char.ofNat 40 ∉ mp) (hbrace : Char.ofNat 123 ∉ mp)
    (hspace : spaceChar ∈ mp)
    (hcount : (mp.map backtickToHash).count spaceChar ≤ 2) :
    transformMatchPattern mp
      = some ((splitOnChar spaceChar (mp.map backtickToHash)).headD []
          ++ chars "(" ++ (splitOnChar spaceChar (mp.map backtickToHash)).getD 1 []
          ++ chars ")") := by
  have hp : chars "(" = [Char.ofNat 40] := by decide
  have hb : chars "\x7b" = [Char.ofNat 123] := by decide
  have hs : chars " " = [spaceChar] := by decide
  have hinc1 : jsIncludes mp (chars "(") = false :=
    hp ▸ jsIncludes_singleton_of_not_mem hparen
  have hinc2 : jsIncludes mp (chars "\x7b") = false :=
    hb ▸ jsIncludes_singleton_of_not_mem hbrace
  have hsmap : spaceChar ∈ mp.map backtickToHash :=
    List.mem_map.mpr ⟨spaceChar, hspace, by decide⟩
  have hinc3 : jsIncludes (mp.map backtickToHash) (chars " ") = true :=
    hs ▸ jsIncludes_singleton_of_mem hsmap
  have hmain : ∀ x, x ∈ (splitOnChar spaceChar (mp.map backtickToHash)).getD 1 []
      → x ∈ mp.map backtickToHash := by
    intro x hx
    by_cases hlen : 1 < (splitOnChar spaceChar (mp.map backtickToHash)).length
    · rw [List.getD_eq_getElem _ _ hlen] at hx
      exact mem_of_mem_splitOnChar (List.getElem_mem _) hx
    · rw [List.getD_eq_default _ _ (Nat.le_of_not_lt hlen)] at hx
      simp at hx
  have hpspace : spaceChar ∉ (splitOnChar spaceChar (mp.map backtickToHash)).getD 1 [] := by
    by_cases hlen : 1 < (splitOnChar spaceChar (mp.map backtickToHash)).length
    · rw [List.getD_eq_getElem _ _ hlen]
      exact not_mem_of_mem_splitOnChar (List.getElem_mem _)
    · rw [List.getD_eq_default _ _ (Nat.le_of_not_lt hlen)]
      simp
  have hppar : Char.ofNat 40 ∉ (splitOnChar spaceChar (mp.map backtickToHash)).getD 1 [] :=
    fun hx => hparen (mem_of_mem_map_backtickToHash (by decide) (hmain _ hx))
  have hpbrace : Char.ofNat 123 ∉ (splitOnChar spaceChar (mp.map backtickToHash)).getD 1 [] :=
    fun hx => hbrace (mem_of_mem_map_backtickToHash (by decide) (hmain _ hx))
  have hinner := transformMatchPattern_no_space hppar hpbrace hpspace
  have hcnt : ¬ ((mp.map backtickToHash).count spaceChar > 2) := by omega
  unfold transformMatchPattern
  rw [if_neg (by simp [hinc1, hinc2])]
  simp only [hinc3, hinner]
  rw [if_neg hcnt]
  simp

/-- A `threw` outcome in the middle of the extractor loop is indistinguishable
from an `ok false` outcome with the same effect on the accumulator. -/
theorem runExtractorsForLine_threw_eq_ok_false
    (f : codeActionExtractorConfig → filesCodeActions) :
    ∀ (es₁ es₂ : List codeActionExtractor) (cfg : codeActionExtractorConfig),
      runExtractorsForLine (es₁ ++ (fun c => .threw (f c)) :: es₂) cfg
        = runExtractorsForLine (es₁ ++ (fun c => .ok false (f c)) :: es₂) cfg := by
  intro es₁
  induction es₁ with
  | nil => intro es₂ cfg; rfl
  | cons e es ih =>
    intro es₂ cfg
    rw [List.cons_append, List.cons_append]
    simp only [runExtractorsForLine]
    cases he : e cfg with
    | ok b acc => cases b <;> simp only [ih]
    | threw acc => simp only [ih]

/-! Sample inputs used by concrete witnesses. -/

/-- A sample single-line range (both positions on line 0). -/
def sampleRange : Range :=
  { start := { line := 0, character := 5 }, «end» := { line := 0, character := 8 } }

/-- A sample multi-line range. -/
def sampleRangeMulti : Range :=
  { start := { line := 1, character := 10 }, «end» := { line := 3, character := 4 } }

/-- An extractor that always reports a match and leaves the accumulator alone. -/
def sampleMatchingExtractor : codeActionExtractor := fun cfg => .ok true cfg.codeActions

/-- An empty sample configuration. -/
def sampleEmptyCfg : codeActionExtractorConfig :=
  { line := [], index := 0, array := [], file := [],
    range := sampleRange, codeActions := [] }

/-! The claims. -/

/-- C1: the claim states that at most one CodeAction is ever produced per
diagnostic, the first matching extractor winning and extraction
short-circuiting even when the message contains several trigger lines. The
dispatch comment in the source states the same intent, but the `break` only
leaves the extractor loop of the current line while the `forEach` over lines
continues, so this two-trigger-line message yields two accumulator entries for
the single diagnostic. -/
theorem C1_two_actions_for_one_diagnostic :
    (findCodeActionsInDiagnosticsMessage
      [chars "Hint: Did you mean foo", chars "Hint: Did you mean bar"]
      (chars "a.res") sampleRange []).length = 2 := by decide

/-- C2 counterexample: the registered extractor list is not the five-element
list, beginning with the identifier-suggestion extractor, that the claim
states; `simpleTypeMismatches` is registered and tried first. -/
theorem C2_claimed_order_counterexample :
    codeActionEtractors ≠
      [ExtractorKind.didYouMeanAction, ExtractorKind.addUndefinedRecordFields,
       ExtractorKind.simpleConversion, ExtractorKind.applyUncurried,
       ExtractorKind.simpleAddMissingCases] := by decide

/-- C2 amended: for every line the dispatcher tries the six registered
extractors in the fixed source order - type-mismatch first, then
identifier-suggestion, record-fields, type-conversion, uncurried-call,
exhaustiveness - stopping at the first extractor that reports a match for that
line. -/
theorem C2_order_and_short_circuit :
    codeActionEtractors =
      [ExtractorKind.simpleTypeMismatches, ExtractorKind.didYouMeanAction,
       ExtractorKind.addUndefinedRecordFields, ExtractorKind.simpleConversion,
       ExtractorKind.applyUncurried, ExtractorKind.simpleAddMissingCases]
    ∧ ∀ (e : codeActionExtractor) (rest : List codeActionExtractor)
        (cfg : codeActionExtractorConfig) (acc : filesCodeActions),
        e cfg = .ok true acc → runExtractorsForLine (e :: rest) cfg = acc := by
  refine ⟨rfl, ?_⟩
  intro e rest cfg acc h
  simp only [runExtractorsForLine, h]

/-- C2 witness: the short-circuit conclusion at a concrete matching extractor
and configuration. -/
theorem C2_order_and_short_circuit_witness :
    runExtractorsForLine [sampleMatchingExtractor] sampleEmptyCfg
      = sampleEmptyCfg.codeActions :=
  C2_order_and_short_circuit.2 sampleMatchingExtractor [] sampleEmptyCfg
    sampleEmptyCfg.codeActions rfl

/-- C4: an extractor that throws - modelled as an outcome that aborts with the
accumulator in an arbitrary state `f cfg` - is caught at the dispatch level
and treated exactly as a non-match with the same accumulator state: the whole
pass over the message produces identical results, so subsequent extractors,
lines and diagnostics are unaffected. The embedded dispatcher is a total
function, so it never throws itself. -/
theorem C4_thrown_extractor_equals_non_match :
    ∀ (es₁ es₂ : List codeActionExtractor)
      (f : codeActionExtractorConfig → filesCodeActions)
      (diagnosticMessage : List JSString) (file : JSString) (range : Range)
      (acc : filesCodeActions),
      findCodeActionsInDiagnosticsMessageWith
          (es₁ ++ (fun cfg => ExtractorOutcome.threw (f cfg)) :: es₂)
          diagnosticMessage file range acc
        = findCodeActionsInDiagnosticsMessageWith
            (es₁ ++ (fun cfg => ExtractorOutcome.ok false (f cfg)) :: es₂)
            diagnosticMessage file range acc := by
  intro es₁ es₂ f diagnosticMessage file range acc
  unfold findCodeActionsInDiagnosticsMessageWith
  apply List.foldl_ext
  intro a b _
  exact runExtractorsForLine_threw_eq_ok_false f es₁ es₂ _

/-- C9: the claim (and the comment in the source: `Constructors are preceded
by a single space. Bail if there's more than 1.`) states that a case token
with more than one embedded space is rejected with a null normalization. The
code instead tests `matched.length > 2`, so this token with exactly two
spaces is not rejected: it is normalized to `A(b)`, silently dropping `c`. -/
theorem C9_two_space_case_not_rejected :
    transformMatchPattern (chars "A b c") = some (chars "A(b)") := by
  rw [transformMatchPattern_with_space (by decide) (by decide) (by decide) (by decide)]
  decide

/-- C3: a message line that is the marker `Hint: Did you mean ` followed by a
nonempty token of word characters makes the identifier-suggestion extractor
report a match and push exactly one action whose single edit replaces the
diagnosed range verbatim with the token; and whenever the suggestion cannot be
extracted from a line that starts with the trigger prefix - the regex match is
`null` because the literal with its trailing space does not occur, or the
optional capture group is `undefined` because no word character follows the
literal - the extractor reports no match and leaves the accumulator
untouched. -/
theorem C3_didYouMean_replaces_range :
    (∀ (cfg : codeActionExtractorConfig) (tok : JSString),
        cfg.line = chars "Hint: Did you mean " ++ tok
        → tok ≠ []
        → (∀ c ∈ tok, isWordChar c = true)
        → didYouMeanAction cfg
            = .ok true (cfg.codeActions ++ [(cfg.file, cfg.range,
                { title := chars "Replace with \x27" ++ tok ++ chars "\x27"
                  edits := [(cfg.file, [{ range := cfg.range, newText := tok }])]
                  isPreferred := true })]))
    ∧ (∀ cfg : codeActionExtractorConfig,
        listStartsWith cfg.line (chars "Hint: Did you mean") = true
        → didYouMeanMatch cfg.line = none
        → didYouMeanAction cfg = .ok false cfg.codeActions)
    ∧ (∀ cfg : codeActionExtractorConfig,
        listStartsWith cfg.line (chars "Hint: Did you mean") = true
        → didYouMeanMatch cfg.line = some none
        → didYouMeanAction cfg = .ok false cfg.codeActions) := by
  refine ⟨?_, ?_, ?_⟩
  · intro cfg tok hline htokne htok
    have hguard : listStartsWith cfg.line (chars "Hint: Did you mean") = true := by
      rw [hline,
        show chars "Hint: Did you mean " = chars "Hint: Did you mean" ++ [spaceChar]
          from by decide,
        List.append_assoc]
      exact listStartsWith_prefix_append _ _
    have hrun : tok.takeWhile isWordChar = tok := takeWhile_eq_self_of_all htok
    have hne : tok.isEmpty = false := by
      cases tok with
      | nil => exact absurd rfl htokne
      | cons a t => rfl
    have hmatch : didYouMeanMatch cfg.line = some (some tok) := by
      rw [didYouMeanMatch, hline,
        show chars "Hint: Did you mean " = chars "Hint: " ++ chars "Did you mean "
          from by decide,
        show chars "Did you mean " = Char.ofNat 68 :: chars "id you mean "
          from by decide,
        splitFirstSub_of_head_notMem (Char.ofNat 68) (chars "id you mean ")
          (chars "Hint: ") tok (by decide)]
      show some (if (tok.takeWhile isWordChar).isEmpty then none
        else some (tok.takeWhile isWordChar)) = some (some tok)
      rw [hrun, hne]
      rfl
    rw [didYouMeanAction]
    simp only [hguard, if_true, hmatch]
  · intro cfg hguard hmatch
    rw [didYouMeanAction]
    simp only [hguard, if_true, hmatch]
  · intro cfg hguard hmatch
    rw [didYouMeanAction]
    simp only [hguard, if_true, hmatch]

/-- Configuration on which the identifier-suggestion extractor finds the
suggestion `someIdent` (the example of the spec). -/
def c3CfgFound : codeActionExtractorConfig :=
  { line := chars "Hint: Did you mean someIdent", index := 0,
    array := [chars "Hint: Did you mean someIdent"], file := chars "a.res",
    range := sampleRange, codeActions := [] }

/-- Configuration whose line starts with the trigger but where the regex match
is `null` (the literal requires a trailing space that this line lacks). -/
def c3CfgMiss : codeActionExtractorConfig :=
  { line := chars "Hint: Did you mean", index := 0,
    array := [chars "Hint: Did you mean"], file := chars "a.res",
    range := sampleRange, codeActions := [] }

/-- Configuration whose line carries the literal with its trailing space but
no word character after it, so the capture group is `undefined`. -/
def c3CfgEmptyCapture : codeActionExtractorConfig :=
  { line := chars "Hint: Did you mean ", index := 0,
    array := [chars "Hint: Did you mean "], file := chars "a.res",
    range := sampleRange, codeActions := [] }

/-- C3 witness: all three conjuncts applied at concrete inputs. -/
theorem C3_didYouMean_replaces_range_witness :
    didYouMeanAction c3CfgFound
      = .ok true (c3CfgFound.codeActions ++ [(c3CfgFound.file, c3CfgFound.range,
          { title := chars "Replace with \x27" ++ chars "someIdent" ++ chars "\x27"
            edits := [(c3CfgFound.file,
              [{ range := c3CfgFound.range, newText := chars "someIdent" }])]
            isPreferred := true })])
    ∧ didYouMeanAction c3CfgMiss = .ok false c3CfgMiss.codeActions
    ∧ didYouMeanAction c3CfgEmptyCapture = .ok false c3CfgEmptyCapture.codeActions :=
  ⟨C3_didYouMean_replaces_range.1 c3CfgFound (chars "someIdent") (by decide)
      (by decide) (by decide),
   C3_didYouMean_replaces_range.2.1 c3CfgMiss (by decide) (by decide),
   C3_didYouMean_replaces_range.2.2 c3CfgEmptyCapture (by decide) (by decide)⟩

/-- C5: the message line `Some record fields are undefined: foo bar` with a
range whose start and end lie on the same line makes the record-fields
extractor push exactly one action with exactly one edit, inserting
`, foo: assert false, bar: assert false` at the zero-width position one
character before the range end - immediately before the closing brace. -/
theorem C5_record_fields_single_line :
    ∀ cfg : codeActionExtractorConfig,
      cfg.line = chars "Some record fields are undefined: foo bar"
      → cfg.array = [chars "Some record fields are undefined: foo bar"]
      → cfg.index = 0
      → cfg.range.start.line = cfg.range.«end».line
      → addUndefinedRecordFields cfg
          = .ok true (cfg.codeActions ++ [(cfg.file, cfg.range,
              { title := chars "Add missing record fields"
                edits := [(cfg.file,
                  [{ range :=
                      { start := { line := cfg.range.«end».line,
                                   character := cfg.range.«end».character - 1 }
                        «end» := { line := cfg.range.«end».line,
                                   character := cfg.range.«end».character - 1 } }
                     newText := chars ", foo: assert false, bar: assert false" }])]
                isPreferred := true })]) := by
  intro cfg hline harr hidx hsame
  have hsplit : jsSplitSecond (trimList (chars "Some record fields are undefined: foo bar"))
      (chars "Some record fields are undefined: ") = some (chars "foo bar") := by decide
  rw [addUndefinedRecordFields]
  simp only [hline, harr, hidx, hsplit,
    if_pos (show listStartsWith (chars "Some record fields are undefined: foo bar")
        (chars "Some record fields are undefined:") = true from by decide)]
  simp only [hsame, bne_self_eq_false, Bool.false_eq_true, if_false]
  simp [insertBeforeEndingChar]
  decide

/-- C6: for a missing-record-fields diagnostic over a multi-line range (here
with fields `foo bar` and end column at least 1), the single inserted edit
sits one character before the range end and its text puts each field on its
own line: the first field follows two spaces (landing at the column of the
existing fields, two columns right of the closing brace), every further field
is left-padded with `end.character + 1` spaces to the same column, each field
gets the placeholder value `assert false` and a trailing comma, and the final
line carries `end.character - 1` spaces so that the closing brace, pushed
right by the insertion, is restored at its original column. -/
theorem C6_record_fields_multi_line :
    ∀ cfg : codeActionExtractorConfig,
      cfg.line = chars "Some record fields are undefined: foo bar"
      → cfg.array = [chars "Some record fields are undefined: foo bar"]
      → cfg.index = 0
      → cfg.range.start.line ≠ cfg.range.«end».line
      → 1 ≤ cfg.range.«end».character
      → addUndefinedRecordFields cfg
          = .ok true (cfg.codeActions ++ [(cfg.file, cfg.range,
              { title := chars "Add missing record fields"
                edits := [(cfg.file,
                  [{ range :=
                      { start := { line := cfg.range.«end».line,
                                   character := cfg.range.«end».character - 1 }
                        «end» := { line := cfg.range.«end».line,
                                   character := cfg.range.«end».character - 1 } }
                     newText :=
                      chars "  foo: assert false,\n"
                        ++ List.replicate (cfg.range.«end».character + 1).toNat spaceChar
                        ++ chars "bar: assert false,\n"
                        ++ List.replicate (cfg.range.«end».character - 1).toNat spaceChar }])]
                isPreferred := true })]) := by
  intro cfg hline harr hidx hdiff hchar
  have hsplit : jsSplitSecond (trimList (chars "Some record fields are undefined: foo bar"))
      (chars "Some record fields are undefined: ") = some (chars "foo bar") := by decide
  have hfields : splitOnChar spaceChar (chars "foo bar") = [chars "foo", chars "bar"] := by
    decide
  have hpad1 : jsSparseJoinSpace (cfg.range.«end».character + 2)
      = List.replicate (cfg.range.«end».character + 1).toNat spaceChar := by
    rw [jsSparseJoinSpace]
    congr 1
    omega
  have hpad2 : jsSparseJoinSpace cfg.range.«end».character
      = List.replicate (cfg.range.«end».character - 1).toNat spaceChar := rfl
  rw [addUndefinedRecordFields]
  simp only [hline, harr, hidx, hsplit,
    if_pos (show listStartsWith (chars "Some record fields are undefined: foo bar")
        (chars "Some record fields are undefined:") = true from by decide)]
  simp only [bne_iff_ne, ne_eq, hdiff, not_false_eq_true, if_true, hfields,
    hpad1, hpad2]
  rw [show chars "  foo: assert false,\n"
        = chars "  " ++ (chars "foo" ++ chars ": assert false,\n") from by decide,
      show chars "bar: assert false,\n"
        = chars "bar" ++ chars ": assert false,\n" from by decide]
  simp [insertBeforeEndingChar, List.enum, List.append_assoc]

/-- Configuration for the single-line record-fields witness. -/
def c5Cfg : codeActionExtractorConfig :=
  { line := chars "Some record fields are undefined: foo bar", index := 0,
    array := [chars "Some record fields are undefined: foo bar"],
    file := chars "a.res", range := sampleRange, codeActions := [] }

/-- C5 witness: the single-line theorem applied at a concrete configuration. -/
theorem C5_record_fields_single_line_witness :
    addUndefinedRecordFields c5Cfg
      = .ok true (c5Cfg.codeActions ++ [(c5Cfg.file, c5Cfg.range,
          { title := chars "Add missing record fields"
            edits := [(c5Cfg.file,
              [{ range :=
                  { start := { line := c5Cfg.range.«end».line,
                               character := c5Cfg.range.«end».character - 1 }
                    «end» := { line := c5Cfg.range.«end».line,
                               character := c5Cfg.range.«end».character - 1 } }
                 newText := chars ", foo: assert false, bar: assert false" }])]
            isPreferred := true })]) :=
  C5_record_fields_single_line c5Cfg rfl rfl rfl (by decide)

/-- Configuration for the multi-line record-fields witness. -/
def c6Cfg : codeActionExtractorConfig :=
  { line := chars "Some record fields are undefined: foo bar", index := 0,
    array := [chars "Some record fields are undefined: foo bar"],
    file := chars "a.res", range := sampleRangeMulti, codeActions := [] }

/-- C6 witness: the multi-line theorem applied at a concrete configuration. -/
theorem C6_record_fields_multi_line_witness :
    addUndefinedRecordFields c6Cfg
      = .ok true (c6Cfg.codeActions ++ [(c6Cfg.file, c6Cfg.range,
          { title := chars "Add missing record fields"
            edits := [(c6Cfg.file,
              [{ range :=
                  { start := { line := c6Cfg.range.«end».line,
                               character := c6Cfg.range.«end».character - 1 }
                    «end» := { line := c6Cfg.range.«end».line,
                               character := c6Cfg.range.«end».character - 1 } }
                 newText :=
                  chars "  foo: assert false,\n"
                    ++ List.replicate (c6Cfg.range.«end».character + 1).toNat spaceChar
                    ++ chars "bar: assert false,\n"
                    ++ List.replicate (c6Cfg.range.«end».character - 1).toNat spaceChar }])]
            isPreferred := true })]) :=
  C6_record_fields_multi_line c6Cfg rfl rfl rfl (by decide) (by decide)

/-- A word run followed by a non-word character: `takeWhile` stops exactly at
the boundary and `dropWhile` keeps the rest. -/
theorem takeWhile_dropWhile_boundary {p : Char → Bool} {A rest : List Char} {c : Char}
    (hA : ∀ a ∈ A, p a = true) (hc : p c = false) :
    (A ++ (c :: rest)).takeWhile p = A ∧ (A ++ (c :: rest)).dropWhile p = c :: rest := by
  constructor
  · rw [List.takeWhile_append_of_pos (by exact fun a ha => hA a ha),
      List.takeWhile_cons_of_neg (by simp [hc]), List.append_nil]
  · rw [List.dropWhile_append_of_pos (by exact fun a ha => hA a ha),
      List.dropWhile_cons_of_neg (by simp [hc])]

/-- Evaluation of the conversion regex attempt on a line of the matching
shape: the three groups come out verbatim. -/
theorem convMatchHere_eval {A B F : List Char}
    (hA : ∀ c ∈ A, isWordChar c = true) (hB : ∀ c ∈ B, isWordChar c = true)
    (hF : ∀ c ∈ F, isWordDotChar c = true) :
    convMatchHere (chars "You can convert "
        ++ (A ++ (chars " to " ++ (B ++ (chars " with " ++ (F ++ chars "."))))))
      = some (A, B, F) := by
  have hsp : isWordChar spaceChar = false := by decide
  have hto : chars " to " ++ (B ++ (chars " with " ++ (F ++ chars ".")))
      = spaceChar :: (chars "to " ++ (B ++ (chars " with " ++ (F ++ chars ".")))) := by
    rw [show chars " to " = spaceChar :: chars "to " from by decide, List.cons_append]
  have hwith : chars " with " ++ (F ++ chars ".")
      = spaceChar :: (chars "with " ++ (F ++ chars ".")) := by
    rw [show chars " with " = spaceChar :: chars "with " from by decide, List.cons_append]
  have e1 : listStartsWith (chars "You can convert "
      ++ (A ++ (chars " to " ++ (B ++ (chars " with " ++ (F ++ chars "."))))))
      (chars "You can convert ") = true := listStartsWith_prefix_append _ _
  have e2 : (chars "You can convert "
      ++ (A ++ (chars " to " ++ (B ++ (chars " with " ++ (F ++ chars ".")))))).drop
      (chars "You can convert ").length
      = A ++ (chars " to " ++ (B ++ (chars " with " ++ (F ++ chars ".")))) :=
    List.drop_left _ _
  have e34 := @takeWhile_dropWhile_boundary isWordChar A
    (chars "to " ++ (B ++ (chars " with " ++ (F ++ chars ".")))) spaceChar hA hsp
  have e5 : listStartsWith (chars " to " ++ (B ++ (chars " with " ++ (F ++ chars "."))))
      (chars " to ") = true := listStartsWith_prefix_append _ _
  have e6 : (chars " to " ++ (B ++ (chars " with " ++ (F ++ chars ".")))).drop
      (chars " to ").length = B ++ (chars " with " ++ (F ++ chars ".")) :=
    List.drop_left _ _
  have e78 := @takeWhile_dropWhile_boundary isWordChar B
    (chars "with " ++ (F ++ chars ".")) spaceChar hB hsp
  have e9 : listStartsWith (chars " with " ++ (F ++ chars ".")) (chars " with ")
      = true := listStartsWith_prefix_append _ _
  have e10 : (chars " with " ++ (F ++ chars ".")).drop (chars " with ").length
      = F ++ chars "." := List.drop_left _ _
  have e11 : (F ++ chars ".").takeWhile isWordDotChar = F ++ chars "." := by
    apply takeWhile_eq_self_of_all
    intro a ha
    rcases List.mem_append.mp ha with h1 | h1
    · exact hF a h1
    · rw [show chars "." = [dotChar] from by decide] at h1
      simp only [List.mem_singleton] at h1
      subst h1; decide
  have e12 : (F ++ chars ".").drop (F ++ chars ".").length = [] := List.drop_length _
  have e13 : (F ++ chars ".").isEmpty = false := by
    rw [show chars "." = [dotChar] from by decide]
    cases F <;> rfl
  have e14 : (F ++ chars ".").dropLast = F := by
    rw [show chars "." = [dotChar] from by decide, List.dropLast_concat]
  rw [hto] at e5 e6
  rw [hwith] at e9 e10
  simp only [convMatchHere]
  rw [if_pos e1, e2, hto, e34.2, e34.1, if_pos e5, e6, hwith, e78.2, e78.1,
    if_pos e9, e10, e11, e12]
  simp [e13, e14]

/-- Evaluation of the unanchored regex search on the same line shape: the
leftmost attempt, at position zero, already succeeds. -/
theorem convMatchLine_eval {A B F : List Char}
    (hA : ∀ c ∈ A, isWordChar c = true) (hB : ∀ c ∈ B, isWordChar c = true)
    (hF : ∀ c ∈ F, isWordDotChar c = true) :
    convMatchLine (chars "You can convert "
        ++ (A ++ (chars " to " ++ (B ++ (chars " with " ++ (F ++ chars "."))))))
      = some (A, B, F) := by
  have hcons : chars "You can convert "
      ++ (A ++ (chars " to " ++ (B ++ (chars " with " ++ (F ++ chars ".")))))
      = Char.ofNat 89 :: (chars "ou can convert "
          ++ (A ++ (chars " to " ++ (B ++ (chars " with " ++ (F ++ chars ".")))))) := by
    rw [show chars "You can convert " = Char.ofNat 89 :: chars "ou can convert "
      from by decide, List.cons_append]
  rw [hcons, convMatchLine, ← hcons, convMatchHere_eval hA hB hF]

/-- C7: a message line of the shape `You can convert <A> to <B> with <fn>.`
makes the conversion extractor push exactly one action carrying exactly two
zero-width edits: `<fn>(` inserted at the range start and `)` inserted at the
range end, the opening insertion point being shifted one character left
exactly when the range is a single zero-width point (start equals end). -/
theorem C7_conversion_wraps_range :
    ∀ (cfg : codeActionExtractorConfig) (A B F : JSString),
      cfg.line = chars "You can convert "
        ++ (A ++ (chars " to " ++ (B ++ (chars " with " ++ (F ++ chars ".")))))
      → (∀ c ∈ A, isWordChar c = true)
      → (∀ c ∈ B, isWordChar c = true)
      → (∀ c ∈ F, isWordDotChar c = true)
      → simpleConversion cfg
          = .ok true (cfg.codeActions ++ [(cfg.file, cfg.range,
              { title := chars "Convert " ++ A ++ chars " to " ++ B
                  ++ chars " with " ++ F
                edits := [(cfg.file,
                  [{ range :=
                      { start := { line := cfg.range.start.line,
                                   character := cfg.range.start.character
                                     - (if cfg.range.start.line = cfg.range.«end».line
                                          ∧ cfg.range.start.character
                                              = cfg.range.«end».character
                                        then 1 else 0) }
                        «end» := { line := cfg.range.start.line,
                                   character := cfg.range.start.character
                                     - (if cfg.range.start.line = cfg.range.«end».line
                                          ∧ cfg.range.start.character
                                              = cfg.range.«end».character
                                        then 1 else 0) } }
                     newText := F ++ chars "(" },
                   { range :=
                      { start := { line := cfg.range.«end».line,
                                   character := cfg.range.«end».character }
                        «end» := { line := cfg.range.«end».line,
                                   character := cfg.range.«end».character } }
                     newText := chars ")" }])]
                isPreferred := true })]) := by
  intro cfg A B F hline hA hB hF
  have hguard : listStartsWith (chars "You can convert "
      ++ (A ++ (chars " to " ++ (B ++ (chars " with " ++ (F ++ chars "."))))))
      (chars "You can convert ") = true := listStartsWith_prefix_append _ _
  simp only [simpleConversion, hline, hguard, if_true, convMatchLine_eval hA hB hF]
  simp [wrapRangeInText, List.append_assoc]

/-- Configuration for the conversion witness, using the example line of the
spec over the sample zero-width-free range. -/
def c7Cfg : codeActionExtractorConfig :=
  { line := chars "You can convert int to float with Belt.Float.fromInt.", index := 0,
    array := [chars "You can convert int to float with Belt.Float.fromInt."],
    file := chars "a.res", range := sampleRange, codeActions := [] }

/-- C7 witness: the theorem applied at the concrete example of the spec. -/
theorem C7_conversion_wraps_range_witness :
    simpleConversion c7Cfg
      = .ok true (c7Cfg.codeActions ++ [(c7Cfg.file, c7Cfg.range,
          { title := chars "Convert " ++ chars "int" ++ chars " to " ++ chars "float"
              ++ chars " with " ++ chars "Belt.Float.fromInt"
            edits := [(c7Cfg.file,
              [{ range :=
                  { start := { line := c7Cfg.range.start.line,
                               character := c7Cfg.range.start.character
                                 - (if c7Cfg.range.start.line = c7Cfg.range.«end».line
                                      ∧ c7Cfg.range.start.character
                                          = c7Cfg.range.«end».character
                                    then 1 else 0) }
                    «end» := { line := c7Cfg.range.start.line,
                               character := c7Cfg.range.start.character
                                 - (if c7Cfg.range.start.line = c7Cfg.range.«end».line
                                      ∧ c7Cfg.range.start.character
                                          = c7Cfg.range.«end».character
                                    then 1 else 0) } }
                 newText := chars "Belt.Float.fromInt" ++ chars "(" },
               { range :=
                  { start := { line := c7Cfg.range.«end».line,
                               character := c7Cfg.range.«end».character }
                    «end» := { line := c7Cfg.range.«end».line,
                               character := c7Cfg.range.«end».character } }
                 newText := chars ")" }])]
            isPreferred := true })]) :=
  C7_conversion_wraps_range c7Cfg (chars "int") (chars "float")
    (chars "Belt.Float.fromInt") (by decide) (by decide) (by decide) (by decide)

/-- C8: with the example lines concatenating to
`` (`AnotherValue|`Third|`Fourth) `` and an end column of at least 1, the
exhaustiveness extractor pushes exactly one action whose single edit, placed
one character before the range end (before the closing delimiter), inserts the
three arms `| #AnotherValue => assert false`, `| #Third => assert false` and
`| #Fourth => assert false`, each arm after the first left-padded with
`end.character - 1` spaces (the closing delimiter's column), with a final line
of the same padding restoring the closing delimiter at its original column;
and whenever the text left after stripping the outer parentheses still
contains an open parenthesis, the extractor reports no match and leaves the
accumulator untouched. -/
theorem C8_missing_cases_inserts_arms :
    (∀ cfg : codeActionExtractorConfig,
        cfg.line = chars "You forgot to handle a possible case here, for example:"
        → cfg.array = [chars "You forgot to handle a possible case here, for example:",
            chars "(`AnotherValue|`Third|`Fourth)"]
        → cfg.index = 0
        → 1 ≤ cfg.range.«end».character
        → simpleAddMissingCases cfg
            = .ok true (cfg.codeActions ++ [(cfg.file, cfg.range,
                { title := chars "Insert missing cases"
                  edits := [(cfg.file,
                    [{ range :=
                        { start := { line := cfg.range.«end».line,
                                     character := cfg.range.«end».character - 1 }
                          «end» := { line := cfg.range.«end».line,
                                     character := cfg.range.«end».character - 1 } }
                       newText :=
                        chars "| #AnotherValue => assert false\n"
                          ++ List.replicate (cfg.range.«end».character - 1).toNat spaceChar
                          ++ chars "| #Third => assert false\n"
                          ++ List.replicate (cfg.range.«end».character - 1).toNat spaceChar
                          ++ chars "| #Fourth => assert false"
                          ++ chars "\n"
                          ++ List.replicate (cfg.range.«end».character - 1).toNat spaceChar }])]
                  isPreferred := true })]))
    ∧ (∀ cfg : codeActionExtractorConfig,
        listStartsWith cfg.line
          (chars "You forgot to handle a possible case here, for example:") = true
        → jsIncludes (sliceOffEnclosing (trimList
            (List.flatten (List.drop (cfg.index + 1) cfg.array)))) (chars "(") = true
        → simpleAddMissingCases cfg = .ok false cfg.codeActions) := by
  have t1 : transformMatchPattern (chars "`AnotherValue") = some (chars "#AnotherValue") := by
    rw [transformMatchPattern_no_space (by decide) (by decide) (by decide)]
    decide
  have t2 : transformMatchPattern (chars "`Third") = some (chars "#Third") := by
    rw [transformMatchPattern_no_space (by decide) (by decide) (by decide)]
    decide
  have t3 : transformMatchPattern (chars "`Fourth") = some (chars "#Fourth") := by
    rw [transformMatchPattern_no_space (by decide) (by decide) (by decide)]
    decide
  constructor
  · intro cfg hline harr hidx hchar
    have hguard : listStartsWith
        (chars "You forgot to handle a possible case here, for example:")
        (chars "You forgot to handle a possible case here, for example:") = true := by
      decide
    have hflat : List.flatten (List.drop (0 + 1)
        [chars "You forgot to handle a possible case here, for example:",
         chars "(`AnotherValue|`Third|`Fourth)"])
        = chars "(`AnotherValue|`Third|`Fourth)" := by decide
    have hslice : sliceOffEnclosing (trimList (chars "(`AnotherValue|`Third|`Fourth)"))
        = chars "`AnotherValue|`Third|`Fourth" := by decide
    have hnoparen : jsIncludes (chars "`AnotherValue|`Third|`Fourth") (chars "(")
        = false := by decide
    have hpipe : jsIncludes (chars "`AnotherValue|`Third|`Fourth") (chars "|")
        = true := by decide
    have hsplitp : splitOnChar pipeChar (chars "`AnotherValue|`Third|`Fourth")
        = [chars "`AnotherValue", chars "`Third", chars "`Fourth"] := by decide
    simp only [simpleAddMissingCases, hline, harr, hidx, hguard, if_true, hflat,
      hslice, hnoparen, Bool.false_eq_true, if_false, hpipe, hsplitp, List.map_cons,
      List.map_nil, t1, t2, t3]
    rw [show chars "| #AnotherValue => assert false\n"
          = chars "| " ++ chars "#AnotherValue" ++ chars " => assert false"
            ++ chars "\n" from by decide,
        show chars "| #Third => assert false\n"
          = chars "| " ++ chars "#Third" ++ chars " => assert false"
            ++ chars "\n" from by decide,
        show chars "| #Fourth => assert false"
          = chars "| " ++ chars "#Fourth" ++ chars " => assert false" from by decide]
    simp [filterTruthy, insertBeforeEndingChar, List.enum, List.intercalate,
      jsSparseJoinSpace, List.append_assoc]
    rw [if_neg (by decide)]
    simp [List.intersperse, List.append_assoc]
  · intro cfg hguard hinc
    simp only [simpleAddMissingCases, hguard, if_true, hinc, Bool.true_eq_false,
      if_true]

/-- Configuration for the positive exhaustiveness witness. -/
def c8Cfg : codeActionExtractorConfig :=
  { line := chars "You forgot to handle a possible case here, for example:", index := 0,
    array := [chars "You forgot to handle a possible case here, for example:",
              chars "(`AnotherValue|`Third|`Fourth)"],
    file := chars "a.res", range := sampleRangeMulti, codeActions := [] }

/-- Configuration whose example carries a parenthesized payload, on which the
extractor must bail. -/
def c8CfgParen : codeActionExtractorConfig :=
  { line := chars "You forgot to handle a possible case here, for example:", index := 0,
    array := [chars "You forgot to handle a possible case here, for example:",
              chars "(`One (a, b)|`Two)"],
    file := chars "a.res", range := sampleRangeMulti, codeActions := [] }

/-- C8 witness: both conjuncts applied at concrete configurations. -/
theorem C8_missing_cases_inserts_arms_witness :
    simpleAddMissingCases c8Cfg
      = .ok true (c8Cfg.codeActions ++ [(c8Cfg.file, c8Cfg.range,
          { title := chars "Insert missing cases"
            edits := [(c8Cfg.file,
              [{ range :=
                  { start := { line := c8Cfg.range.«end».line,
                               character := c8Cfg.range.«end».character - 1 }
                    «end» := { line := c8Cfg.range.«end».line,
                               character := c8Cfg.range.«end».character - 1 } }
                 newText :=
                  chars "| #AnotherValue => assert false\n"
                    ++ List.replicate (c8Cfg.range.«end».character - 1).toNat spaceChar
                    ++ chars "| #Third => assert false\n"
                    ++ List.replicate (c8Cfg.range.«end».character - 1).toNat spaceChar
                    ++ chars "| #Fourth => assert false"
                    ++ chars "\n"
                    ++ List.replicate (c8Cfg.range.«end».character - 1).toNat spaceChar }])]
            isPreferred := true })])
    ∧ simpleAddMissingCases c8CfgParen = .ok false c8CfgParen.codeActions :=
  ⟨C8_missing_cases_inserts_arms.1 c8Cfg rfl rfl rfl (by decide),
   C8_missing_cases_inserts_arms.2 c8CfgParen (by decide) (by decide)⟩

/-- C10: on a line starting with `This has type:`, with `T` the normalized
actual type (the lines up to the `Somewhere wanted:` marker) and `W` the
normalized wanted type (the remaining lines with the marker stripped): if `T`
is exactly `option<W>` the extractor wraps the range in a switch whose `None`
arm maps to `"-"` for string, `false` for bool, `-1` for int, `-1.` for float
and `assert false` otherwise and whose `Some(v)` arm maps to `v`; otherwise,
if `W` is exactly `option<T>`, it wraps the range in `Some(` and `)`;
otherwise it reports no match and leaves the accumulator untouched. -/
theorem C10_type_mismatch_policy :
    ∀ (cfg : codeActionExtractorConfig) (T W : JSString),
      listStartsWith cfg.line (chars "This has type:") = true
      → T = extractTypename (takeUntil
          (cfg.line.drop (chars "This has type:").length
            :: List.drop (cfg.index + 1) cfg.array)
          (chars "Somewhere wanted:"))
      → W = extractTypename (List.map
          (fun line => jsReplaceFirst line (chars "Somewhere wanted:") [])
          (List.drop (cfg.index + (takeUntil
              (cfg.line.drop (chars "This has type:").length
                :: List.drop (cfg.index + 1) cfg.array)
              (chars "Somewhere wanted:")).length) cfg.array))
      → ((T = chars "option<" ++ W ++ chars ">"
            → simpleTypeMismatches cfg
                = .ok true (cfg.codeActions ++ [(cfg.file, cfg.range,
                    { title := chars "Unwrap optional value"
                      edits := [(cfg.file, wrapRangeInText cfg.range (chars "switch ")
                        (chars " \x7b | None => "
                          ++ (if W = chars "string" then chars "\x22-\x22"
                              else if W = chars "bool" then chars "false"
                              else if W = chars "int" then chars "-1"
                              else if W = chars "float" then chars "-1."
                              else chars "assert false")
                          ++ chars " | Some(v) => v \x7d"))]
                      isPreferred := true })]))
          ∧ (T ≠ chars "option<" ++ W ++ chars ">"
              → chars "option<" ++ T ++ chars ">" = W
              → simpleTypeMismatches cfg
                  = .ok true (cfg.codeActions ++ [(cfg.file, cfg.range,
                      { title := chars "Wrap value in Some"
                        edits := [(cfg.file,
                          wrapRangeInText cfg.range (chars "Some(") (chars ")"))]
                        isPreferred := true })]))
          ∧ (T ≠ chars "option<" ++ W ++ chars ">"
              → chars "option<" ++ T ++ chars ">" ≠ W
              → simpleTypeMismatches cfg = .ok false cfg.codeActions)) := by
  intro cfg T W hguard hT hW
  subst hT hW
  refine ⟨?_, ?_, ?_⟩
  · intro h1
    simp only [simpleTypeMismatches, hguard, if_true]
    rw [if_pos h1]
  · intro h1 h2
    simp only [simpleTypeMismatches, hguard, if_true]
    rw [if_neg h1, if_pos h2]
  · intro h1 h2
    simp only [simpleTypeMismatches, hguard, if_true]
    rw [if_neg h1, if_neg h2]

/-- Configuration for the `Some(`-wrap direction of the witness. -/
def c10CfgSome : codeActionExtractorConfig :=
  { line := chars "This has type: string", index := 0,
    array := [chars "This has type: string", chars "Somewhere wanted: option<string>"],
    file := chars "a.res", range := sampleRange, codeActions := [] }

/-- Configuration for the switch-unwrap direction of the witness. -/
def c10CfgSwitch : codeActionExtractorConfig :=
  { line := chars "This has type: option<string>", index := 0,
    array := [chars "This has type: option<string>", chars "Somewhere wanted: string"],
    file := chars "a.res", range := sampleRange, codeActions := [] }

/-- C10 witness: both emitting branches applied at concrete configurations
(the spec's optional-wrap example and its reverse). -/
theorem C10_type_mismatch_policy_witness :
    simpleTypeMismatches c10CfgSome
      = .ok true (c10CfgSome.codeActions ++ [(c10CfgSome.file, c10CfgSome.range,
          { title := chars "Wrap value in Some"
            edits := [(c10CfgSome.file,
              wrapRangeInText c10CfgSome.range (chars "Some(") (chars ")"))]
            isPreferred := true })])
    ∧ simpleTypeMismatches c10CfgSwitch
        = .ok true (c10CfgSwitch.codeActions ++ [(c10CfgSwitch.file, c10CfgSwitch.range,
            { title := chars "Unwrap optional value"
              edits := [(c10CfgSwitch.file,
                wrapRangeInText c10CfgSwitch.range (chars "switch ")
                  (chars " \x7b | None => \x22-\x22 | Some(v) => v \x7d"))]
              isPreferred := true })]) :=
  ⟨(C10_type_mismatch_policy c10CfgSome _ _ (by decide) rfl rfl).2.1
      (by decide) (by decide),
   (C10_type_mismatch_policy c10CfgSwitch _ _ (by decide) rfl rfl).1 (by decide)⟩


